import Mathlib

/-!
Verification of `doxygen-to-md`: a shallow embedding of the package
`doxygen_to_md` (files `src/doxygen_to_md/__init__.py` and
`src/doxygen_to_md/convert.py`) together with proofs about the claims of
its specification.

Modelling conventions:

* An `xml.etree.ElementTree.Element` is modelled by `Elem`: a tag, an
  attribute list, the text appearing before the first child (`text`),
  the child elements, and the text following the element inside its
  parent (`tail`).  Python stores `text`/`tail` as `Optional[str]`; in
  this program every read of those fields treats `None` and `""`
  identically (`itertext` skips falsy values, every `findtext` result is
  immediately passed through an `or` chain), so both are modelled by
  `""`.
* Python's `str.strip()` removes Unicode whitespace; we model the ASCII
  whitespace characters (space, tab, CR, LF), which is exact for the
  ASCII inputs this converter processes.
* Python's `str.lower()` is modelled by ASCII lowercasing
  (`Char.toLower`); this is exact for ASCII text and for any character
  whose Unicode lowercase form is not an ASCII letter or digit.
-/

/-- Model of `xml.etree.ElementTree.Element`: tag, attributes, leading
text, children, and tail text. -/
inductive Elem where
  | mk : String → List (String × String) → String → List Elem → String → Elem

namespace Elem

def tag : Elem → String
  | .mk t _ _ _ _ => t

def attrs : Elem → List (String × String)
  | .mk _ a _ _ _ => a

def text : Elem → String
  | .mk _ _ x _ _ => x

def children : Elem → List Elem
  | .mk _ _ _ cs _ => cs

def tail : Elem → String
  | .mk _ _ _ _ tl => tl

mutual

/-- `Element.itertext()` joined into one string: the element's own text
followed, for each child in order, by the child's itertext and then the
child's tail. -/
def itertext : Elem → String
  | .mk _ _ t cs _ => t ++ itertextList cs

/-- The contribution of a list of sibling elements to `itertext`. -/
def itertextList : List Elem → String
  | [] => ""
  | c :: cs => c.itertext ++ c.tail ++ itertextList cs

end

mutual

/-- All strict descendants of an element, in document (preorder) order:
the node set scanned by `findall(".//tag")` before tag filtering. -/
def descendants : Elem → List Elem
  | .mk _ _ _ cs _ => descendantsList cs

/-- Descendants-or-self of a list of sibling elements, in document order. -/
def descendantsList : List Elem → List Elem
  | [] => []
  | c :: cs => c :: (c.descendants ++ descendantsList cs)

end

/-- `elem.findall(tag)`: the direct children with the given tag, in order. -/
def findall (e : Elem) (t : String) : List Elem :=
  e.children.filter (fun c => c.tag == t)

/-- `elem.findall(".//" + tag)`: all strict descendants with the given
tag, in document order (ElementTree's descendant axis excludes the start
element itself). -/
def findallDesc (e : Elem) (t : String) : List Elem :=
  e.descendants.filter (fun c => c.tag == t)

/-- `elem.find(tag)`: the first direct child with the given tag, if any. -/
def find (e : Elem) (t : String) : Option Elem :=
  (e.findall t).head?

/-- `elem.findtext(tag) or ""`: the `text` of the first child with the
given tag; both "no such child" and "child with empty text" give `""`
(every `findtext` call in this program feeds an `or` chain, which
identifies the two cases). -/
def findtextD (e : Elem) (t : String) : String :=
  match e.find t with
  | some c => c.text
  | none => ""

/-- `elem.get(key)`: attribute lookup. -/
def getAttr (e : Elem) (k : String) : Option String :=
  (e.attrs.find? (fun kv => kv.1 == k)).map (fun kv => kv.2)

/-- `elem.get(key, "")`: attribute lookup with default `""`. -/
def getAttrD (e : Elem) (k : String) : String :=
  (e.getAttr k).getD ""

end Elem

/-- `ET.Element("")`: a fresh element with empty tag, no attributes, no
text and no children. -/
def emptyElem : Elem := Elem.mk "" [] "" [] ""

/-- Python `a or b` on strings: `a` unless it is empty (falsy). -/
def pyOr (a b : String) : String :=
  if a == "" then b else a

/-- Python `a or b` where `a` is an `Optional[Element]` and `b` an
element: an `Element` is falsy when it has no children, so a found but
childless element is discarded in favour of `b`. -/
def pyOrElem (a : Option Elem) (b : Elem) : Elem :=
  match a with
  | some e => if e.children.isEmpty then b else e
  | none => b

/-- Python `a or b` on two `Optional[Element]` values, with the same
falsiness rule (absent, or present but childless). -/
def pyOrElemOpt (a b : Option Elem) : Option Elem :=
  match a with
  | some e => if e.children.isEmpty then b else some e
  | none => b

/-- Drop the longest suffix whose characters satisfy `p`. -/
def dropRightWhileL (p : Char → Bool) (l : List Char) : List Char :=
  (l.reverse.dropWhile p).reverse

/-- Python `s.strip(chars)` on a character list: drop the characters
satisfying `p` from both ends. -/
def stripListWhile (p : Char → Bool) (l : List Char) : List Char :=
  dropRightWhileL p (l.dropWhile p)

/-- Python `s.strip(chars)`: drop the characters satisfying `p` from
both ends of the string. -/
def stripWhile (p : Char → Bool) (s : String) : String :=
  String.mk (stripListWhile p s.toList)

/-- Python `s.strip()` (whitespace at both ends removed). -/
def pyStrip (s : String) : String :=
  stripWhile Char.isWhitespace s

/-- Python `s.strip("\n")` (newlines at both ends removed). -/
def stripNewlines (s : String) : String :=
  stripWhile (fun c => c == '\n') s

/-- Python `s.strip("-")` (hyphens at both ends removed). -/
def stripHyphens (s : String) : String :=
  stripWhile (fun c => c == '-') s

/-- Worker for `reSubRuns`: `prevRun` records whether the previous
character belonged to a run being replaced. -/
def reSubRunsAux (p : Char → Bool) (prevRun : Bool) : List Char → List Char
  | [] => []
  | c :: cs =>
    if p c then
      (if prevRun then [] else ['-']) ++ reSubRunsAux p true cs
    else
      c :: reSubRunsAux p false cs

/-- Model of `re.sub(cls + "+", "-", s)` for a character class: every
maximal run of characters satisfying `p` is replaced by one hyphen. -/
def reSubRuns (p : Char → Bool) (s : String) : String :=
  String.mk (reSubRunsAux p false s.toList)

/-- Python `s.lower()` (exact on ASCII; see the header note). -/
def lowerStr (s : String) : String :=
  String.mk (s.toList.map Char.toLower)

/-- Python `s.startswith(pre)`. -/
def strStartsWith (s pre : String) : Bool :=
  pre.toList.isPrefixOf s.toList

/-- The regex character class `[^a-z0-9]` from `_anchor`. -/
def isNotAz09 (c : Char) : Bool :=
  !((('a' : Char) ≤ c && c ≤ ('z' : Char)) || (('0' : Char) ≤ c && c ≤ ('9' : Char)))

/-!
The module `src/doxygen_to_md/__init__.py` — the `convert` exported to
the CLI and the tests.
-/

namespace DoxygenToMd

/-- `_anchor` (nested in `convert`): lowercase, replace every maximal
run of characters matching `[^a-z0-9]` by one hyphen, strip hyphens at
both ends. -/
def anchor (t : String) : String :=
  stripHyphens (reSubRuns isNotAz09 (lowerStr t))

/-- `_text_from_elem`: the trimmed non-empty texts of the direct `para`
children joined by blank lines; if that list is empty, fall back to the
trimmed full text content of the element itself. -/
def textFromElem (elem : Elem) : String :=
  let paras := ((elem.findall "para").map (fun p => pyStrip p.itertext)).filter (fun t => t != "")
  let paras := if paras.isEmpty then
      (let t := pyStrip elem.itertext; if t != "" then [t] else [])
    else paras
  String.intercalate "\n\n" paras

/-- The blocks a single `enum` element appends: heading (name falling
back to definition), optional brief, one list item per `enumvalue`. -/
def enumParts (enum : Elem) : List String :=
  ["### Enum: " ++ pyOr (enum.findtextD "name") (pyOr (enum.findtextD "definition") "")]
  ++ (match enum.find "briefdescription" with
      | some brief => let bt := textFromElem brief; if bt != "" then [bt] else []
      | none => [])
  ++ (enum.findall "enumvalue").map (fun ev =>
      let vname := pyOr (ev.findtextD "name") (pyOr (ev.findtextD "id") "")
      let vbrief := textFromElem (pyOrElem (ev.find "briefdescription") emptyElem)
      "- `" ++ vname ++ "`: " ++ vbrief)

/-- The blocks one `compounddef` element appends: heading, brief and
detailed text for kinds class/struct/namespace, then the blocks of every
`enum` descendant. -/
def compoundParts (comp : Elem) : List String :=
  (if comp.getAttrD "kind" == "class" || comp.getAttrD "kind" == "struct"
      || comp.getAttrD "kind" == "namespace" then
     ["## " ++ comp.findtextD "compoundname"]
     ++ (match comp.find "briefdescription" with
         | some brief => let bt := textFromElem brief; if bt != "" then [bt] else []
         | none => [])
     ++ (match comp.find "detaileddescription" with
         | some deta => let dt := textFromElem deta; if dt != "" then [dt] else []
         | none => [])
   else [])
  ++ (comp.findallDesc "enum").flatMap enumParts

/-- `member.findtext('name') or ''`. -/
def memberName (m : Elem) : String := m.findtextD "name"

/-- `member.findtext('argsstring') or ''`. -/
def memberArgs (m : Elem) : String := m.findtextD "argsstring"

/-- `(member.findtext('type') or '').strip()`. -/
def retType (m : Elem) : String := pyStrip (m.findtextD "type")

/-- The member heading block `### <name><argsstring>`. -/
def memberHeader (m : Elem) : String := "### " ++ memberName m ++ memberArgs m

/-- `func_anchor = _anchor(f"{name} {args}")`. -/
def funcAnchor (m : Elem) : String := anchor (memberName m ++ " " ++ memberArgs m)

/-- The optional `**Brief:**` block of a member. -/
def briefBlock (m : Elem) : List String :=
  match m.find "briefdescription" with
  | some brief => let bt := textFromElem brief; if bt != "" then ["**Brief:** " ++ bt] else []
  | none => []

/-- The fenced code block emitted for one `programlisting` child. -/
def codeBlock (prog : Elem) : List String :=
  let code := stripNewlines prog.itertext
  if code != "" then ["```cpp\n" ++ pyStrip code ++ "\n```"] else []

/-- The `**Returns:**` block emitted for one `simplesect` child. -/
def returnsBlock (s : Elem) : List String :=
  if s.getAttr "kind" == some "return" then
    (let rt := textFromElem s; if rt != "" then ["**Returns:** " ++ rt] else [])
  else []

/-- The blocks emitted from a member's `detaileddescription`: its text,
its `programlisting` children's code blocks, its `simplesect kind=return`
children's blocks. -/
def detailBlocks (m : Elem) : List String :=
  match m.find "detaileddescription" with
  | some detailed =>
      (let dt := textFromElem detailed; if dt != "" then [dt] else [])
      ++ (detailed.findall "programlisting").flatMap codeBlock
      ++ (detailed.findall "simplesect").flatMap returnsBlock
  | none => []

/-- One row of the parameters table (given the member's anchor `fa`). -/
def paramRow (fa : String) (p : Elem) : String :=
  let pname := pyOr (p.findtextD "declname") (pyOr (p.findtextD "defname") "")
  let ptype := pyStrip (p.findtextD "type")
  let pbrief := textFromElem (pyOrElem (p.find "briefdescription") emptyElem)
  let typeAnchor := anchor ptype
  let ptypeFmt := if typeAnchor != "" then "[`" ++ ptype ++ "`](#type-" ++ typeAnchor ++ ")"
                  else "`" ++ ptype ++ "`"
  let pnameAnchor := anchor pname
  let pnameLink := if pname != "" then "[`" ++ pname ++ "`](#" ++ fa ++ "-" ++ pnameAnchor ++ ")"
                   else ""
  "| " ++ pnameLink ++ " | " ++ ptypeFmt ++ " | " ++ pbrief ++ " |"

/-- The parameter-table blocks of a member: label, header row, divider
row and one row per `param` child; nothing when there are no params. -/
def paramsBlock (m : Elem) : List String :=
  let params := m.findall "param"
  if params.isEmpty then []
  else ["**Parameters:**", "| Name | Type | Description |", "| --- | --- | --- |"]
       ++ params.map (paramRow (funcAnchor m))

/-- `member.find('../templateparamlist')`: an ElementTree path that
steps from the start element to its parent.  By the documented
`xml.etree.ElementTree` XPath semantics, a path that attempts to reach
the ancestors of the start element (the element `find` was called on)
returns `None`, so this lookup never finds anything. -/
def findParentTag (_m : Elem) (_t : String) : Option Elem := none

/-- The `**Template parameters:**` blocks of a member. -/
def tplBlock (m : Elem) : List String :=
  match pyOrElemOpt (m.find "templateparamlist") (findParentTag m "templateparamlist") with
  | some tpl =>
      let tparams := (tpl.findall "param").map (fun t =>
        pyStrip (pyOr (t.findtextD "type") (pyStrip t.itertext)))
      if tparams.isEmpty then [] else
        ["**Template parameters:**"] ++ tparams.map (fun tp => "- " ++ tp)
  | none => []

/-- Python `md_parts[-3:]`: the last (up to) three accumulated blocks. -/
def lastThree (l : List String) : List String := l.drop (l.length - 3)

/-- The `**Type:**` fallback block, checked against the accumulated
output `acc` (which at the check site already contains every block of
the current member emitted so far). -/
def retBlock (acc : List String) (m : Elem) : List String :=
  if retType m != "" && !((lastThree acc).any (fun p => strStartsWith p "**Returns:**")) then
    ["**Type:** " ++ retType m]
  else []

/-- One iteration of the `memberdef` loop: append all blocks of member
`m` (and the trailing empty separator block) to the accumulator. -/
def processMember (acc : List String) (m : Elem) : List String :=
  let acc1 := acc ++ [memberHeader m] ++ briefBlock m ++ detailBlocks m
              ++ paramsBlock m ++ tplBlock m
  acc1 ++ retBlock acc1 m ++ [""]

/-- `md_parts` after both loops: the compound blocks for every
`compounddef` descendant, then the member blocks for every `memberdef`
descendant, in document order. -/
def allParts (root : Elem) : List String :=
  let afterCompounds := (root.findallDesc "compounddef").foldl
    (fun acc comp => acc ++ compoundParts comp) []
  (root.findallDesc "memberdef").foldl processMember afterCompounds

/-- The Markdown text built from a parsed document:
`"\n".join(md_parts).strip() + "\n"`. -/
def render (root : Elem) : String :=
  pyStrip (String.intercalate "\n" (allParts root)) ++ "\n"

/-- `convert`, parametrised by the XML parser (`ET.fromstring`, external
to the package): `parse s = none` models "`s` is not well-formed XML"
(an `ET.ParseError`), upon which `convert` raises
`ValueError("Input is not valid XML Doxygen output")`, modelled as the
`Except.error` case.  On well-formed input the parsed root is rendered. -/
def convert (parse : String → Option Elem) (s : String) : Except String String :=
  match parse s with
  | none => Except.error "Input is not valid XML Doxygen output"
  | some root => Except.ok (render root)

end DoxygenToMd

/-!
The module `src/doxygen_to_md/convert.py`.  Its `_text_from_elem` and
`convert` are textually identical to the ones in `__init__.py` (only the
string-quoting style differs), so the embedding repeats the same
definitions under a second namespace.
-/

namespace ConvertPy

/-- `_anchor` (nested in `convert.py`'s `convert`). -/
def anchor (t : String) : String :=
  stripHyphens (reSubRuns isNotAz09 (lowerStr t))

/-- `_text_from_elem` from `convert.py`. -/
def textFromElem (elem : Elem) : String :=
  let paras := ((elem.findall "para").map (fun p => pyStrip p.itertext)).filter (fun t => t != "")
  let paras := if paras.isEmpty then
      (let t := pyStrip elem.itertext; if t != "" then [t] else [])
    else paras
  String.intercalate "\n\n" paras

/-- The enum blocks of `convert.py`'s `convert`. -/
def enumParts (enum : Elem) : List String :=
  ["### Enum: " ++ pyOr (enum.findtextD "name") (pyOr (enum.findtextD "definition") "")]
  ++ (match enum.find "briefdescription" with
      | some brief => let bt := textFromElem brief; if bt != "" then [bt] else []
      | none => [])
  ++ (enum.findall "enumvalue").map (fun ev =>
      let vname := pyOr (ev.findtextD "name") (pyOr (ev.findtextD "id") "")
      let vbrief := textFromElem (pyOrElem (ev.find "briefdescription") emptyElem)
      "- `" ++ vname ++ "`: " ++ vbrief)

/-- The `compounddef` blocks of `convert.py`'s `convert`. -/
def compoundParts (comp : Elem) : List String :=
  (if comp.getAttrD "kind" == "class" || comp.getAttrD "kind" == "struct"
      || comp.getAttrD "kind" == "namespace" then
     ["## " ++ comp.findtextD "compoundname"]
     ++ (match comp.find "briefdescription" with
         | some brief => let bt := textFromElem brief; if bt != "" then [bt] else []
         | none => [])
     ++ (match comp.find "detaileddescription" with
         | some deta => let dt := textFromElem deta; if dt != "" then [dt] else []
         | none => [])
   else [])
  ++ (comp.findallDesc "enum").flatMap enumParts

/-- `member.findtext('name') or ''` in `convert.py`. -/
def memberName (m : Elem) : String := m.findtextD "name"

/-- `member.findtext('argsstring') or ''` in `convert.py`. -/
def memberArgs (m : Elem) : String := m.findtextD "argsstring"

/-- `(member.findtext('type') or '').strip()` in `convert.py`. -/
def retType (m : Elem) : String := pyStrip (m.findtextD "type")

/-- The member heading block in `convert.py`. -/
def memberHeader (m : Elem) : String := "### " ++ memberName m ++ memberArgs m

/-- The member anchor in `convert.py`. -/
def funcAnchor (m : Elem) : String := anchor (memberName m ++ " " ++ memberArgs m)

/-- The `**Brief:**` block in `convert.py`. -/
def briefBlock (m : Elem) : List String :=
  match m.find "briefdescription" with
  | some brief => let bt := textFromElem brief; if bt != "" then ["**Brief:** " ++ bt] else []
  | none => []

/-- The fenced code block for one `programlisting` in `convert.py`. -/
def codeBlock (prog : Elem) : List String :=
  let code := stripNewlines prog.itertext
  if code != "" then ["```cpp\n" ++ pyStrip code ++ "\n```"] else []

/-- The `**Returns:**` block for one `simplesect` in `convert.py`. -/
def returnsBlock (s : Elem) : List String :=
  if s.getAttr "kind" == some "return" then
    (let rt := textFromElem s; if rt != "" then ["**Returns:** " ++ rt] else [])
  else []

/-- The detailed-description blocks in `convert.py`. -/
def detailBlocks (m : Elem) : List String :=
  match m.find "detaileddescription" with
  | some detailed =>
      (let dt := textFromElem detailed; if dt != "" then [dt] else [])
      ++ (detailed.findall "programlisting").flatMap codeBlock
      ++ (detailed.findall "simplesect").flatMap returnsBlock
  | none => []

/-- One parameter-table row in `convert.py`. -/
def paramRow (fa : String) (p : Elem) : String :=
  let pname := pyOr (p.findtextD "declname") (pyOr (p.findtextD "defname") "")
  let ptype := pyStrip (p.findtextD "type")
  let pbrief := textFromElem (pyOrElem (p.find "briefdescription") emptyElem)
  let typeAnchor := anchor ptype
  let ptypeFmt := if typeAnchor != "" then "[`" ++ ptype ++ "`](#type-" ++ typeAnchor ++ ")"
                  else "`" ++ ptype ++ "`"
  let pnameAnchor := anchor pname
  let pnameLink := if pname != "" then "[`" ++ pname ++ "`](#" ++ fa ++ "-" ++ pnameAnchor ++ ")"
                   else ""
  "| " ++ pnameLink ++ " | " ++ ptypeFmt ++ " | " ++ pbrief ++ " |"

/-- The parameter-table blocks in `convert.py`. -/
def paramsBlock (m : Elem) : List String :=
  let params := m.findall "param"
  if params.isEmpty then []
  else ["**Parameters:**", "| Name | Type | Description |", "| --- | --- | --- |"]
       ++ params.map (paramRow (funcAnchor m))

/-- `member.find('../templateparamlist')` in `convert.py` (always `None`;
see `DoxygenToMd.findParentTag`). -/
def findParentTag (_m : Elem) (_t : String) : Option Elem := none

/-- The `**Template parameters:**` blocks in `convert.py`. -/
def tplBlock (m : Elem) : List String :=
  match pyOrElemOpt (m.find "templateparamlist") (findParentTag m "templateparamlist") with
  | some tpl =>
      let tparams := (tpl.findall "param").map (fun t =>
        pyStrip (pyOr (t.findtextD "type") (pyStrip t.itertext)))
      if tparams.isEmpty then [] else
        ["**Template parameters:**"] ++ tparams.map (fun tp => "- " ++ tp)
  | none => []

/-- `md_parts[-3:]` in `convert.py`. -/
def lastThree (l : List String) : List String := l.drop (l.length - 3)

/-- The `**Type:**` fallback block in `convert.py`. -/
def retBlock (acc : List String) (m : Elem) : List String :=
  if retType m != "" && !((lastThree acc).any (fun p => strStartsWith p "**Returns:**")) then
    ["**Type:** " ++ retType m]
  else []

/-- One iteration of the `memberdef` loop in `convert.py`. -/
def processMember (acc : List String) (m : Elem) : List String :=
  let acc1 := acc ++ [memberHeader m] ++ briefBlock m ++ detailBlocks m
              ++ paramsBlock m ++ tplBlock m
  acc1 ++ retBlock acc1 m ++ [""]

/-- `md_parts` after both loops in `convert.py`. -/
def allParts (root : Elem) : List String :=
  let afterCompounds := (root.findallDesc "compounddef").foldl
    (fun acc comp => acc ++ compoundParts comp) []
  (root.findallDesc "memberdef").foldl processMember afterCompounds

/-- The final Markdown assembly in `convert.py`. -/
def render (root : Elem) : String :=
  pyStrip (String.intercalate "\n" (allParts root)) ++ "\n"

/-- `convert` from `convert.py`, parametrised by the XML parser exactly
as `DoxygenToMd.convert` is. -/
def convert (parse : String → Option Elem) (s : String) : Except String String :=
  match parse s with
  | none => Except.error "Input is not valid XML Doxygen output"
  | some root => Except.ok (render root)

end ConvertPy

/-!
Definitions modelled from the claims' words, for comparison with the
source embedding, and concrete fixture elements used by the
counterexample and witness theorems.
-/

/-- The anchor-slug function as the claim words it: lowercase, replace
every maximal run of non-alphanumeric characters by a single hyphen,
remove leading/trailing hyphens. -/
def anchorClaim (s : String) : String :=
  stripHyphens (reSubRuns (fun c => !c.isAlphanum) (lowerStr s))

/-- The paragraph-text extractor as the claim words it: the non-empty
trimmed texts of the direct paragraph children joined by a blank line
when at least one such paragraph exists; otherwise, if the node has zero
paragraph children, the trimmed concatenation of all descendant text;
otherwise the empty string. -/
def textFromElemClaim (elem : Elem) : String :=
  let nonempty := ((elem.findall "para").map (fun p => pyStrip p.itertext)).filter
    (fun t => t != "")
  if !nonempty.isEmpty then String.intercalate "\n\n" nonempty
  else if (elem.findall "para").isEmpty then pyStrip elem.itertext
  else ""

/-- The paragraph-text extractor as amended: the fallback to the node's
full descendant text fires whenever no non-empty trimmed paragraph was
produced (zero paragraph children, or paragraph children that all trim
to the empty string). -/
def textFromElemAmended (elem : Elem) : String :=
  let nonempty := ((elem.findall "para").map (fun p => pyStrip p.itertext)).filter
    (fun t => t != "")
  if !nonempty.isEmpty then String.intercalate "\n\n" nonempty
  else pyStrip elem.itertext

/-- A document root with no compound and no member: the converter emits
no block for it. -/
def emptyRoot : Elem := Elem.mk "doxygen" [] "" [] ""

/-- A description node whose only paragraph child is empty but whose own
leading text is `"hi"`. -/
def descAllEmptyParas : Elem :=
  Elem.mk "detaileddescription" [] "hi" [Elem.mk "para" [] "" [] ""] ""

/-- A code listing whose text starts with two spaces. -/
def progIndented : Elem := Elem.mk "programlisting" [] "  int x;" [] ""

/-- A member whose detailed description holds `progIndented`. -/
def memIndented : Elem :=
  Elem.mk "memberdef" [] ""
    [Elem.mk "detaileddescription" [] "" [progIndented] ""] ""

/-- A member with one parameter (`int a`), used by witnesses. -/
def memAdd : Elem :=
  Elem.mk "memberdef" [] ""
    [ Elem.mk "name" [] "add" [] ""
    , Elem.mk "argsstring" [] "(int a, int b)" [] ""
    , Elem.mk "type" [] "int" [] ""
    , Elem.mk "param" [] ""
        [ Elem.mk "type" [] "int" [] ""
        , Elem.mk "declname" [] "a" [] "" ] ""
    ] ""

/-- A member with no children at all (in particular no parameters). -/
def memBare : Elem := Elem.mk "memberdef" [] "" [] ""

/-- A document root holding `memAdd`, used by witnesses. -/
def rootAdd : Elem := Elem.mk "doxygen" [] "" [memAdd] ""

/-- Claim predicate: the string ends with exactly one trailing newline
(its last character is a newline and the character before it, when there
is one, is not). -/
def endsWithOneNewline (s : String) : Prop :=
  s.toList.getLast? = some '\n' ∧ s.toList.dropLast.getLast? ≠ some '\n'

/-- Claim predicate: the string does not begin with a blank line or any
whitespace (its first character, when there is one, is not whitespace). -/
def noLeadingWhitespace (s : String) : Prop :=
  ∀ c, s.toList.head? = some c → c.isWhitespace = false

/-!
General lemmas about the string helpers.
-/

theorem head?_dropWhile_not {α} {p : α → Bool} {c : α} :
    ∀ {l : List α}, (List.dropWhile p l).head? = some c → p c = false := by
  intro l
  induction l with
  | nil => intro h; simp [List.dropWhile] at h
  | cons a as ih =>
    intro h
    rw [List.dropWhile_cons] at h
    by_cases hp : p a
    · rw [if_pos hp] at h; exact ih h
    · rw [if_neg hp] at h
      simp only [List.head?_cons, Option.some.injEq] at h
      subst h
      exact Bool.eq_false_iff.mpr hp

theorem dropWhile_dropWhile_of_imp {α} {p q : α → Bool}
    (h : ∀ c, q c = true → p c = true) :
    ∀ (l : List α), (l.dropWhile q).dropWhile p = l.dropWhile p := by
  intro l
  induction l with
  | nil => rfl
  | cons a as ih =>
    by_cases hq : q a
    · rw [List.dropWhile_cons_of_pos hq, ih, List.dropWhile_cons_of_pos (h a hq)]
    · rw [List.dropWhile_cons_of_neg hq]

theorem rdropWhile_rdropWhile_of_imp {α} {p q : α → Bool}
    (h : ∀ c, q c = true → p c = true) (l : List α) :
    (l.rdropWhile q).rdropWhile p = l.rdropWhile p := by
  simp only [List.rdropWhile, List.reverse_reverse]
  rw [dropWhile_dropWhile_of_imp h]

theorem rdropWhile_eq_self_of_last {α} {q : α → Bool} {m : List α} {c : α}
    (hc : m.getLast? = some c) (hqc : q c = false) : m.rdropWhile q = m := by
  rw [List.rdropWhile_eq_self_iff]
  intro hl
  rw [List.getLast?_eq_getLast m hl, Option.some.injEq] at hc
  rw [hc, hqc]
  exact Bool.false_ne_true

theorem dropWhile_rdropWhile_comm {α} {p q : α → Bool}
    (h : ∀ c, q c = true → p c = true) (l : List α) :
    (l.rdropWhile q).dropWhile p = (l.dropWhile p).rdropWhile q := by
  induction l using List.reverseRecOn with
  | nil => rfl
  | append_singleton xs x ih =>
    by_cases hq : q x
    · rw [List.rdropWhile_concat_pos _ _ x hq, ih, List.dropWhile_append]
      by_cases he : (xs.dropWhile p).isEmpty
      · rw [if_pos he]
        rw [List.isEmpty_iff] at he
        rw [he, List.rdropWhile_nil]
        have hp : p x = true := h x hq
        simp [List.dropWhile, hp]
      · rw [if_neg he]
        rw [List.rdropWhile_concat_pos _ _ x hq]
    · rw [List.rdropWhile_concat_neg _ _ x hq]
      cases hme : List.dropWhile p (xs ++ [x]) with
      | nil => rw [List.rdropWhile_nil]
      | cons a as =>
        rw [← hme]
        have hne : List.dropWhile p (xs ++ [x]) ≠ [] := by rw [hme]; exact List.cons_ne_nil a as
        have hlast : (List.dropWhile p (xs ++ [x])).getLast? = some x := by
          obtain ⟨t, ht⟩ := List.dropWhile_suffix (l := xs ++ [x]) p
          have h1 : List.getLast? (t ++ List.dropWhile p (xs ++ [x])) = some x := by
            rw [ht]
            exact List.getLast?_concat xs
          rw [List.getLast?_append_of_ne_nil t hne] at h1
          exact h1
        exact (rdropWhile_eq_self_of_last hlast (Bool.eq_false_iff.mpr hq)).symm

theorem stripListWhile_eq_rdrop (p : Char → Bool) (l : List Char) :
    stripListWhile p l = (l.dropWhile p).rdropWhile p := rfl

theorem stripListWhile_stripListWhile_of_imp {p q : Char → Bool}
    (h : ∀ c, q c = true → p c = true) (l : List Char) :
    stripListWhile p (stripListWhile q l) = stripListWhile p l := by
  simp only [stripListWhile_eq_rdrop]
  rw [dropWhile_rdropWhile_comm h, rdropWhile_rdropWhile_of_imp h,
    dropWhile_dropWhile_of_imp h]

theorem toList_stripWhile (p : Char → Bool) (s : String) :
    (stripWhile p s).toList = stripListWhile p s.toList := rfl

theorem stripWhile_stripWhile_of_imp {p q : Char → Bool}
    (h : ∀ c, q c = true → p c = true) (s : String) :
    stripWhile p (stripWhile q s) = stripWhile p s :=
  congrArg String.mk (stripListWhile_stripListWhile_of_imp h s.toList)

theorem newline_is_whitespace : ∀ c : Char, (c == '\n') = true → c.isWhitespace = true := by
  intro c hc
  rw [beq_iff_eq] at hc
  rw [hc]
  rfl

theorem pyStrip_stripNewlines (s : String) : pyStrip (stripNewlines s) = pyStrip s :=
  stripWhile_stripWhile_of_imp newline_is_whitespace s

theorem pyStrip_idem (s : String) : pyStrip (pyStrip s) = pyStrip s :=
  stripWhile_stripWhile_of_imp (fun _ hc => hc) s

theorem head?_stripListWhile_not {p : Char → Bool} {l : List Char} {c : Char}
    (h : (stripListWhile p l).head? = some c) : p c = false := by
  rw [stripListWhile_eq_rdrop] at h
  obtain ⟨t, ht⟩ := List.rdropWhile_prefix p (l := l.dropWhile p)
  have hcons : ∃ cs, (l.dropWhile p).rdropWhile p = c :: cs := by
    cases hm : (l.dropWhile p).rdropWhile p with
    | nil => rw [hm] at h; simp at h
    | cons a as =>
      rw [hm] at h
      simp only [List.head?_cons, Option.some.injEq] at h
      exact ⟨as, by rw [← h]⟩
  obtain ⟨cs, hcs⟩ := hcons
  apply head?_dropWhile_not (l := l)
  rw [← ht, hcs]
  rfl

theorem getLast?_stripListWhile_not {p : Char → Bool} {l : List Char} {c : Char}
    (h : (stripListWhile p l).getLast? = some c) : p c = false := by
  rw [stripListWhile_eq_rdrop] at h
  have hne : (l.dropWhile p).rdropWhile p ≠ [] := by
    intro hnil
    rw [hnil] at h
    simp at h
  have := List.rdropWhile_last_not p (l.dropWhile p) hne
  rw [List.getLast?_eq_getLast _ hne, Option.some.injEq] at h
  rw [h] at this
  exact Bool.eq_false_iff.mpr this

theorem isUpper_charOfNat_between (n : Nat) (h1 : 97 ≤ n) (h2 : n ≤ 122) :
    (Char.ofNat n).isUpper = false := by
  have hv : n.isValidChar := Or.inl (by omega)
  unfold Char.ofNat
  rw [dif_pos hv]
  unfold Char.ofNatAux Char.isUpper
  rw [Bool.and_eq_false_iff]
  right
  simp only [decide_eq_false_iff_not]
  rw [UInt32.le_def, BitVec.le_def]
  simp only [BitVec.toNat_ofNatLt]
  have h90 : ((90 : UInt32).toBitVec).toNat = 90 := rfl
  omega

theorem isUpper_toLower (c : Char) : (Char.toLower c).isUpper = false := by
  unfold Char.toLower
  show (if c.toNat ≥ 65 ∧ c.toNat ≤ 90 then Char.ofNat (c.toNat + 32) else c).isUpper = false
  by_cases h : c.toNat ≥ 65 ∧ c.toNat ≤ 90
  · rw [if_pos h]
    exact isUpper_charOfNat_between _ (by omega) (by omega)
  · rw [if_neg h]
    unfold Char.isUpper
    rw [Bool.and_eq_false_iff]
    have hc : (c.val.toBitVec).toNat = c.toNat := rfl
    have h65 : ((65 : UInt32).toBitVec).toNat = 65 := rfl
    have h90 : ((90 : UInt32).toBitVec).toNat = 90 := rfl
    by_cases hna : c.toNat ≥ 65
    · right
      simp only [decide_eq_false_iff_not]
      intro hle
      rw [UInt32.le_def, BitVec.le_def] at hle
      exact h ⟨hna, by omega⟩
    · left
      simp only [decide_eq_false_iff_not]
      intro hge
      rw [ge_iff_le, UInt32.le_def, BitVec.le_def] at hge
      exact hna (by omega)

theorem isNotAz09_of_not_upper (d : Char) (hu : d.isUpper = false) :
    isNotAz09 d = !d.isAlphanum := by
  have h1 : isNotAz09 d = !(d.isLower || d.isDigit) := by
    simp [isNotAz09, Char.isLower, Char.isDigit, Char.le_def]
  rw [h1]
  simp [Char.isAlphanum, Char.isAlpha, hu]

theorem isNotAz09_toLower (c : Char) :
    isNotAz09 (Char.toLower c) = !(Char.toLower c).isAlphanum :=
  isNotAz09_of_not_upper _ (isUpper_toLower c)

theorem reSubRunsAux_congr {p q : Char → Bool} :
    ∀ (l : List Char) (b : Bool), (∀ c ∈ l, p c = q c) →
      reSubRunsAux p b l = reSubRunsAux q b l := by
  intro l
  induction l with
  | nil => intro b _; rfl
  | cons a as ih =>
    intro b h
    have ha : p a = q a := h a (List.mem_cons_self a as)
    have hs : ∀ c ∈ as, p c = q c := fun c hc => h c (List.mem_cons_of_mem a hc)
    simp only [reSubRunsAux, ha]
    by_cases hq : q a
    · rw [if_pos hq, if_pos hq, ih true hs]
    · rw [if_neg hq, if_neg hq, ih false hs]

theorem anchor_eq_anchorClaim (s : String) : DoxygenToMd.anchor s = anchorClaim s := by
  show stripHyphens (String.mk (reSubRunsAux isNotAz09 false (s.toList.map Char.toLower)))
      = stripHyphens (String.mk (reSubRunsAux (fun c => !c.isAlphanum) false
          (s.toList.map Char.toLower)))
  refine congrArg (fun l => stripHyphens (String.mk l)) ?_
  refine reSubRunsAux_congr _ false ?_
  intro c hc
  obtain ⟨a, _, rfl⟩ := List.mem_map.mp hc
  exact isNotAz09_toLower a

theorem intercalate_singleton (sep t : String) : String.intercalate sep [t] = t := rfl

theorem toList_append (s t : String) : (s ++ t).toList = s.toList ++ t.toList := by
  simp [String.toList]

theorem toList_pyStrip (s : String) :
    (pyStrip s).toList = stripListWhile Char.isWhitespace s.toList := rfl

theorem pyStrip_ne_empty_toList {s : String} (h : pyStrip s ≠ "") :
    (pyStrip s).toList ≠ [] := by
  intro hl
  exact h (by
    apply String.ext
    rw [show ("" : String).data = [] from rfl]
    exact hl)

theorem retBlock_eq (acc : List String) (m : Elem) :
    DoxygenToMd.retBlock acc m =
      (if DoxygenToMd.retType m ≠ "" ∧
          (∀ b ∈ DoxygenToMd.lastThree acc, strStartsWith b "**Returns:**" = false)
       then ["**Type:** " ++ DoxygenToMd.retType m] else []) := by
  unfold DoxygenToMd.retBlock
  by_cases h : DoxygenToMd.retType m ≠ "" ∧
      (∀ b ∈ DoxygenToMd.lastThree acc, strStartsWith b "**Returns:**" = false)
  · have hb : (DoxygenToMd.retType m != "" &&
        !((DoxygenToMd.lastThree acc).any (fun p => strStartsWith p "**Returns:**"))) = true := by
      simp only [Bool.and_eq_true, bne_iff_ne, ne_eq, Bool.not_eq_true', List.any_eq_false]
      exact ⟨h.1, fun b hb2 => by rw [h.2 b hb2]; exact Bool.false_ne_true⟩
    rw [hb, if_pos rfl, if_pos h]
  · have hb : (DoxygenToMd.retType m != "" &&
        !((DoxygenToMd.lastThree acc).any (fun p => strStartsWith p "**Returns:**"))) = false := by
      rw [Bool.and_eq_false_iff]
      by_cases h1 : DoxygenToMd.retType m = ""
      · left; simp [h1]
      · right
        rw [Bool.not_eq_false', List.any_eq_true]
        by_contra hno
        apply h
        refine ⟨h1, fun b hb2 => ?_⟩
        by_contra hbt
        exact hno ⟨b, hb2, eq_true_of_ne_false hbt⟩
    rw [hb, if_neg (by simp), if_neg h]

theorem textFromElem_eq_amended (e : Elem) :
    DoxygenToMd.textFromElem e = textFromElemAmended e := by
  unfold DoxygenToMd.textFromElem textFromElemAmended
  by_cases h : (((e.findall "para").map (fun p => pyStrip p.itertext)).filter
      (fun t => t != "")).isEmpty
  · simp only [h, if_true, Bool.not_true, if_false]
    by_cases ht : (pyStrip e.itertext != "") = true
    · rw [if_pos ht, intercalate_singleton]
      simp
    · rw [if_neg ht]
      have hempty : pyStrip e.itertext = "" := by simpa using ht
      rw [hempty]
      rfl
  · have hf : (((e.findall "para").map (fun p => pyStrip p.itertext)).filter
        (fun t => t != "")).isEmpty = false := eq_false_of_ne_true h
    simp only [hf, if_false, Bool.not_false, if_true]
    simp

theorem codeBlock_eq_amended (prog : Elem) :
    DoxygenToMd.codeBlock prog =
      (if stripNewlines prog.itertext != "" then
        ["```cpp\n" ++ pyStrip prog.itertext ++ "\n```"] else []) := by
  show (if stripNewlines prog.itertext != "" then
      ["```cpp\n" ++ pyStrip (stripNewlines prog.itertext) ++ "\n```"] else []) = _
  rw [pyStrip_stripNewlines]

theorem render_endsWithOneNewline (root : Elem) :
    endsWithOneNewline (DoxygenToMd.render root) := by
  unfold DoxygenToMd.render endsWithOneNewline
  rw [toList_append, show ("\n" : String).toList = ['\n'] from rfl]
  constructor
  · exact List.getLast?_concat _
  · rw [List.dropLast_concat]
    intro hlast
    rw [toList_pyStrip] at hlast
    have hw := getLast?_stripListWhile_not hlast
    simp at hw

theorem render_noLeadingWhitespace (root : Elem)
    (h : pyStrip (String.intercalate "\n" (DoxygenToMd.allParts root)) ≠ "") :
    noLeadingWhitespace (DoxygenToMd.render root) := by
  unfold DoxygenToMd.render noLeadingWhitespace
  intro c hc
  rw [toList_append, show ("\n" : String).toList = ['\n'] from rfl] at hc
  have hne := pyStrip_ne_empty_toList h
  cases hx : (pyStrip (String.intercalate "\n" (DoxygenToMd.allParts root))).toList with
  | nil => exact absurd hx hne
  | cons a as =>
    rw [hx] at hc
    simp only [List.cons_append, List.head?_cons, Option.some.injEq] at hc
    subst hc
    apply head?_stripListWhile_not (p := Char.isWhitespace)
      (l := (String.intercalate "\n" (DoxygenToMd.allParts root)).toList)
    rw [← toList_pyStrip, hx]
    rfl

/-!
The claim theorems.
-/

/-- C1: `convert` raises the single Malformed-Input failure (the
`ValueError`, modelled as the `Except.error` case) exactly when the input
is not well-formed XML (`parse s = none`); on failure no output is
produced, and on every well-formed input it returns the complete rendered
Markdown string and raises no failure of any kind. -/
theorem spec_C1 (parse : String → Option Elem) (s : String) :
    (DoxygenToMd.convert parse s
        = Except.error "Input is not valid XML Doxygen output" ↔ parse s = none)
    ∧ (∀ root, parse s = some root →
        DoxygenToMd.convert parse s = Except.ok (DoxygenToMd.render root)) := by
  unfold DoxygenToMd.convert
  cases h : parse s with
  | none => simp
  | some r => simp

/-- Witness for C1 at a parser that succeeds with `emptyRoot`. -/
theorem spec_C1_witness :
    DoxygenToMd.convert (fun _ => some emptyRoot) "x"
      = Except.ok (DoxygenToMd.render emptyRoot) :=
  (spec_C1 (fun _ => some emptyRoot) "x").2 emptyRoot rfl

/-- C2: the anchor slug of `s` is `s` lowercased with every maximal run
of non-alphanumeric characters replaced by a single hyphen and
leading/trailing hyphens removed; in particular the slug of `""` is
`""`, of `"T"` is `"t"`, and of `"int a"` is `"int-a"`. -/
theorem spec_C2 :
    (∀ s : String, DoxygenToMd.anchor s = anchorClaim s)
    ∧ DoxygenToMd.anchor "" = "" ∧ DoxygenToMd.anchor "T" = "t"
    ∧ DoxygenToMd.anchor "int a" = "int-a" :=
  ⟨anchor_eq_anchorClaim, by decide, by decide, by decide⟩

/-- C3 counterexample: for a listing whose text is `"  int x;"` (leading
spaces), the claim requires a fenced block containing the text with only
newlines stripped (so keeping the two spaces), but the emitted block
contains the fully whitespace-stripped text instead. -/
theorem spec_C3_counterexample :
    DoxygenToMd.detailBlocks memIndented = ["int x;", "```cpp\nint x;\n```"]
    ∧ stripNewlines (Elem.itertext progIndented) = "  int x;"
    ∧ ("```cpp\n" ++ stripNewlines (Elem.itertext progIndented) ++ "\n```")
        ∉ DoxygenToMd.detailBlocks memIndented := by decide

/-- C3 (amended): for every code listing directly inside a member's
detailed description, a fenced block tagged `cpp` is emitted iff the
listing's concatenated descendant text stripped of leading/trailing
newlines is non-empty, and the emitted content is that text stripped of
all leading and trailing whitespace (internal formatting preserved). -/
theorem spec_C3 (m detailed : Elem)
    (hd : Elem.find m "detaileddescription" = some detailed) :
    DoxygenToMd.detailBlocks m
      = (if DoxygenToMd.textFromElem detailed != ""
          then [DoxygenToMd.textFromElem detailed] else [])
        ++ (Elem.findall detailed "programlisting").flatMap (fun prog =>
            if stripNewlines prog.itertext != "" then
              ["```cpp\n" ++ pyStrip prog.itertext ++ "\n```"] else [])
        ++ (Elem.findall detailed "simplesect").flatMap DoxygenToMd.returnsBlock := by
  unfold DoxygenToMd.detailBlocks
  rw [hd, show DoxygenToMd.codeBlock = (fun prog =>
      if stripNewlines (Elem.itertext prog) != "" then
        ["```cpp\n" ++ pyStrip (Elem.itertext prog) ++ "\n```"] else [])
    from funext codeBlock_eq_amended]

/-- Witness for C3 at `memIndented`. -/
theorem spec_C3_witness :
    DoxygenToMd.detailBlocks memIndented
      = (if DoxygenToMd.textFromElem (Elem.mk "detaileddescription" [] "" [progIndented] "")
            != ""
          then [DoxygenToMd.textFromElem (Elem.mk "detaileddescription" [] "" [progIndented] "")]
          else [])
        ++ (Elem.findall (Elem.mk "detaileddescription" [] "" [progIndented] "")
              "programlisting").flatMap (fun prog =>
            if stripNewlines prog.itertext != "" then
              ["```cpp\n" ++ pyStrip prog.itertext ++ "\n```"] else [])
        ++ (Elem.findall (Elem.mk "detaileddescription" [] "" [progIndented] "")
              "simplesect").flatMap DoxygenToMd.returnsBlock :=
  spec_C3 memIndented (Elem.mk "detaileddescription" [] "" [progIndented] "") rfl

/-- C4: the **Template parameters:** block of a member is driven only by
a `templateparamlist` that is a direct child of the member itself (the
source's extra `'../templateparamlist'` lookup can never match, and a
found but childless list is discarded as falsy, contributing nothing);
each emitted list item is the entry's type field or, when that is
absent/empty, the entry's full raw text content, trimmed. -/
theorem spec_C4 (m : Elem) :
    DoxygenToMd.tplBlock m
      = (match Elem.find m "templateparamlist" with
         | some tpl =>
            if (Elem.children tpl).isEmpty then []
            else
              (let items := (Elem.findall tpl "param").map (fun t =>
                  if Elem.findtextD t "type" != "" then pyStrip (Elem.findtextD t "type")
                  else pyStrip (Elem.itertext t));
               if items.isEmpty then []
               else ["**Template parameters:**"] ++ items.map (fun tp => "- " ++ tp))
         | none => []) := by
  unfold DoxygenToMd.tplBlock DoxygenToMd.findParentTag pyOrElemOpt
  cases hf : Elem.find m "templateparamlist" with
  | none => rfl
  | some tpl =>
    have hitem : (fun t => pyStrip (pyOr (Elem.findtextD t "type") (pyStrip (Elem.itertext t))))
        = (fun t : Elem =>
            if Elem.findtextD t "type" != "" then pyStrip (Elem.findtextD t "type")
            else pyStrip (Elem.itertext t)) := by
      funext t
      unfold pyOr
      by_cases h0 : (Elem.findtextD t "type" == "") = true
      · rw [if_pos h0, if_neg (by simpa using h0), pyStrip_idem]
      · rw [if_neg h0, if_pos (by simpa using h0)]
    by_cases hc : (Elem.children tpl).isEmpty
    · simp [hc]
    · have hcf : (Elem.children tpl).isEmpty = false := eq_false_of_ne_true hc
      rw [hitem]
      simp [hcf]

/-- C5: the `**Type:** <return-type>` block of a member is emitted if
and only if the member's trimmed return-type string is non-empty and
none of the last three blocks of the whole accumulated output at the
check point begins with `**Returns:**`. -/
theorem spec_C5 (acc : List String) (m : Elem) :
    DoxygenToMd.processMember acc m
      = (acc ++ [DoxygenToMd.memberHeader m] ++ DoxygenToMd.briefBlock m
          ++ DoxygenToMd.detailBlocks m ++ DoxygenToMd.paramsBlock m
          ++ DoxygenToMd.tplBlock m)
        ++ (if DoxygenToMd.retType m ≠ "" ∧
              (∀ b ∈ DoxygenToMd.lastThree (acc ++ [DoxygenToMd.memberHeader m]
                  ++ DoxygenToMd.briefBlock m ++ DoxygenToMd.detailBlocks m
                  ++ DoxygenToMd.paramsBlock m ++ DoxygenToMd.tplBlock m),
                strStartsWith b "**Returns:**" = false)
            then ["**Type:** " ++ DoxygenToMd.retType m] else [])
        ++ [""] := by
  unfold DoxygenToMd.processMember
  show (acc ++ [DoxygenToMd.memberHeader m] ++ DoxygenToMd.briefBlock m
      ++ DoxygenToMd.detailBlocks m ++ DoxygenToMd.paramsBlock m ++ DoxygenToMd.tplBlock m)
    ++ DoxygenToMd.retBlock (acc ++ [DoxygenToMd.memberHeader m] ++ DoxygenToMd.briefBlock m
      ++ DoxygenToMd.detailBlocks m ++ DoxygenToMd.paramsBlock m ++ DoxygenToMd.tplBlock m) m
    ++ [""] = _
  rw [retBlock_eq]

/-- C6 counterexample: a well-formed document that emits no block (no
compound and no member) renders as exactly `"\n"`, which begins with a
blank line / whitespace character, contradicting the claim that the
output never begins with whitespace. -/
theorem spec_C6_counterexample :
    DoxygenToMd.render emptyRoot = "\n"
    ∧ ¬ noLeadingWhitespace (DoxygenToMd.render emptyRoot) := by
  constructor
  · decide
  · intro hno
    exact absurd (hno '\n' (by decide)) (by decide)

/-- C6 (amended): the output is always the emitted blocks joined by
single newlines with surrounding whitespace trimmed and exactly one
newline appended; it always ends with exactly one trailing newline; and
whenever the trimmed join is non-empty (some block was emitted) the
output begins with a non-whitespace character.  When no block is emitted
the output is exactly `"\n"`. -/
theorem spec_C6 (root : Elem) :
    DoxygenToMd.render root
      = pyStrip (String.intercalate "\n" (DoxygenToMd.allParts root)) ++ "\n"
    ∧ endsWithOneNewline (DoxygenToMd.render root)
    ∧ (pyStrip (String.intercalate "\n" (DoxygenToMd.allParts root)) ≠ "" →
        noLeadingWhitespace (DoxygenToMd.render root)) :=
  ⟨rfl, render_endsWithOneNewline root, fun h => render_noLeadingWhitespace root h⟩

/-- Witness for C6 at a document with one member: the trimmed join is
non-empty and the output starts with a non-whitespace character. -/
theorem spec_C6_witness :
    pyStrip (String.intercalate "\n" (DoxygenToMd.allParts rootAdd)) ≠ ""
    ∧ noLeadingWhitespace (DoxygenToMd.render rootAdd) :=
  ⟨by decide, (spec_C6 rootAdd).2.2 (by decide)⟩

/-- C7: `convert` is deterministic — equal input strings (under the same
parser) produce byte-identical output. -/
theorem spec_C7 (parse : String → Option Elem) (x y : String) (h : x = y) :
    DoxygenToMd.convert parse x = DoxygenToMd.convert parse y := by
  rw [h]

/-- Witness for C7 at a concrete parser and input. -/
theorem spec_C7_witness :
    DoxygenToMd.convert (fun _ => some emptyRoot) "a"
      = DoxygenToMd.convert (fun _ => some emptyRoot) "a" :=
  spec_C7 (fun _ => some emptyRoot) "a" "a" rfl

/-- C8 counterexample: a description node whose only paragraph child is
empty but whose own text is `"hi"` — the claim's case split (fall back
to descendant text only when there are zero paragraph children) yields
`""`, but the extractor returns `"hi"`, because the code falls back
whenever no non-empty paragraph was produced. -/
theorem spec_C8_counterexample :
    DoxygenToMd.textFromElem descAllEmptyParas = "hi"
    ∧ textFromElemClaim descAllEmptyParas = ""
    ∧ DoxygenToMd.textFromElem descAllEmptyParas
        ≠ textFromElemClaim descAllEmptyParas := by decide

/-- C8 (amended): the extractor returns the non-empty trimmed texts of
the direct paragraph children joined by blank lines when at least one
exists, and otherwise — including when paragraph children exist but all
trim to empty — the trimmed concatenation of all descendant text (which
is `""` when that text is empty); an absent node (the `ET.Element("")`
the callers substitute) yields `""`.  The function is total (never
raises). -/
theorem spec_C8 :
    (∀ e : Elem, DoxygenToMd.textFromElem e = textFromElemAmended e)
    ∧ DoxygenToMd.textFromElem emptyElem = "" :=
  ⟨textFromElem_eq_amended, by decide⟩

/-- C9: the two renderer implementations — `convert` in `__init__.py`
and `convert` in `convert.py` — are extensionally equal: on every input
they raise the same failure or return identical Markdown. -/
theorem spec_C9 (parse : String → Option Elem) (s : String) :
    DoxygenToMd.convert parse s = ConvertPy.convert parse s := rfl

/-- C10: for a member with at least one parameter, the emitted output
contains — contiguously — the bold label `**Parameters:**`, the header
row, the divider row, and then the parameter rows; for a member with no
parameter the member's output is assembled without any of these table
blocks. -/
theorem spec_C10 (acc : List String) (m : Elem) :
    ((Elem.findall m "param").isEmpty = false →
      ∃ pre post, DoxygenToMd.processMember acc m
        = pre ++ (["**Parameters:**", "| Name | Type | Description |", "| --- | --- | --- |"]
            ++ (Elem.findall m "param").map (DoxygenToMd.paramRow (DoxygenToMd.funcAnchor m)))
          ++ post)
    ∧ ((Elem.findall m "param").isEmpty = true →
      DoxygenToMd.processMember acc m
        = (acc ++ [DoxygenToMd.memberHeader m] ++ DoxygenToMd.briefBlock m
            ++ DoxygenToMd.detailBlocks m ++ DoxygenToMd.tplBlock m)
          ++ DoxygenToMd.retBlock (acc ++ [DoxygenToMd.memberHeader m]
              ++ DoxygenToMd.briefBlock m ++ DoxygenToMd.detailBlocks m
              ++ DoxygenToMd.tplBlock m) m
          ++ [""]) := by
  constructor
  · intro h
    refine ⟨acc ++ [DoxygenToMd.memberHeader m] ++ DoxygenToMd.briefBlock m
        ++ DoxygenToMd.detailBlocks m,
      DoxygenToMd.tplBlock m
        ++ DoxygenToMd.retBlock (acc ++ [DoxygenToMd.memberHeader m]
            ++ DoxygenToMd.briefBlock m ++ DoxygenToMd.detailBlocks m
            ++ DoxygenToMd.paramsBlock m ++ DoxygenToMd.tplBlock m) m
        ++ [""], ?_⟩
    unfold DoxygenToMd.processMember
    show (acc ++ [DoxygenToMd.memberHeader m] ++ DoxygenToMd.briefBlock m
        ++ DoxygenToMd.detailBlocks m ++ DoxygenToMd.paramsBlock m ++ DoxygenToMd.tplBlock m)
      ++ DoxygenToMd.retBlock (acc ++ [DoxygenToMd.memberHeader m] ++ DoxygenToMd.briefBlock m
        ++ DoxygenToMd.detailBlocks m ++ DoxygenToMd.paramsBlock m ++ DoxygenToMd.tplBlock m) m
      ++ [""] = _
    rw [show DoxygenToMd.paramsBlock m
        = ["**Parameters:**", "| Name | Type | Description |", "| --- | --- | --- |"]
          ++ (Elem.findall m "param").map (DoxygenToMd.paramRow (DoxygenToMd.funcAnchor m))
      from by simp [DoxygenToMd.paramsBlock, h]]
    simp [List.append_assoc]
  · intro h
    unfold DoxygenToMd.processMember
    show (acc ++ [DoxygenToMd.memberHeader m] ++ DoxygenToMd.briefBlock m
        ++ DoxygenToMd.detailBlocks m ++ DoxygenToMd.paramsBlock m ++ DoxygenToMd.tplBlock m)
      ++ DoxygenToMd.retBlock (acc ++ [DoxygenToMd.memberHeader m] ++ DoxygenToMd.briefBlock m
        ++ DoxygenToMd.detailBlocks m ++ DoxygenToMd.paramsBlock m ++ DoxygenToMd.tplBlock m) m
      ++ [""] = _
    rw [show DoxygenToMd.paramsBlock m = [] from by simp [DoxygenToMd.paramsBlock, h]]
    simp

/-- Witness for C10: the member `memAdd` has one parameter and its
output contains the contiguous table blocks; the childless member
`memBare` is assembled without them. -/
theorem spec_C10_witness :
    (∃ pre post, DoxygenToMd.processMember [] memAdd
      = pre ++ (["**Parameters:**", "| Name | Type | Description |", "| --- | --- | --- |"]
          ++ (Elem.findall memAdd "param").map
              (DoxygenToMd.paramRow (DoxygenToMd.funcAnchor memAdd)))
        ++ post)
    ∧ DoxygenToMd.processMember [] memBare
        = ([] ++ [DoxygenToMd.memberHeader memBare] ++ DoxygenToMd.briefBlock memBare
            ++ DoxygenToMd.detailBlocks memBare ++ DoxygenToMd.tplBlock memBare)
          ++ DoxygenToMd.retBlock ([] ++ [DoxygenToMd.memberHeader memBare]
              ++ DoxygenToMd.briefBlock memBare ++ DoxygenToMd.detailBlocks memBare
              ++ DoxygenToMd.tplBlock memBare) memBare
          ++ [""] :=
  ⟨(spec_C10 [] memAdd).1 (by decide), (spec_C10 [] memBare).2 (by decide)⟩
